import Mathlib

/-!
Shallow embedding of `src/photomosaics/process_source.py`.

Python strings are modelled as `List Char`, bytes as `List Nat`, and POSIX
path semantics (`os.sep = '/'`) are used throughout.  `os.path.abspath`
depends on the process working directory, so it is passed as an explicit
function parameter; theorems constrain its value at the path of interest.
External PIL decoding (`Image.open` plus the implicit decode of the pixel
data) is passed as an abstract `decode` function returning `Option`, where
`none` stands for any exception raised inside the per-file `try` block.
-/

/-- models Python `str.startswith(os.sep)` (as used by `posixpath.join`). -/
def pyStartsWithSep : List Char → Bool
  | [] => false
  | c :: _ => c == '/'

/-- models Python `str.endswith(os.sep)`: the last character is the separator. -/
def pyEndsWithSep (l : List Char) : Bool := pyStartsWithSep l.reverse

/-- models `posixpath.join(a, b)` (two arguments; `os.path.join` on POSIX):
if `b` starts with the separator the result is `b`; if `a` is empty or ends
with the separator the result is `a ++ b`; otherwise a separator is inserted. -/
def pyJoin2 (a b : List Char) : List Char :=
  if pyStartsWithSep b then b
  else if a.isEmpty || pyEndsWithSep a then a ++ b
  else a ++ '/' :: b

/-- models Python `str.split(os.sep)`. -/
def splitSep : List Char → List (List Char)
  | [] => [[]]
  | c :: cs =>
    let r := splitSep cs
    if c = '/' then [] :: r else (c :: r.headD []) :: r.tail

/-- models Python `os.sep.join(parts)`. -/
def joinSep : List (List Char) → List Char
  | [] => []
  | [x] => x
  | x :: y :: xs => x ++ '/' :: joinSep (y :: xs)

/-- models `posixpath.basename`: everything after the last separator. -/
def basename (p : List Char) : List Char :=
  (p.reverse.takeWhile (fun c => c != '/')).reverse

/-- second half of `posixpath.dirname`: strip trailing separators from the
kept prefix unless it is empty or consists only of separators. -/
def dirnameStrip (head : List Char) : List Char :=
  if head ≠ [] ∧ head.any (fun c => c != '/') then
    (head.reverse.dropWhile (fun c => c == '/')).reverse
  else head

/-- models `posixpath.dirname`: everything up to and including the last
separator, with trailing separators then stripped unless the result is empty
or consists only of separators. -/
def dirname (p : List Char) : List Char :=
  dirnameStrip ((p.reverse.dropWhile (fun c => c != '/')).reverse)

/-- models Python `list.index(a)`: index of the first occurrence of `a`. -/
def listIndex (a : List Char) : List (List Char) → Nat
  | [] => 0
  | x :: xs => if x = a then 0 else listIndex a xs + 1

/-- the sentinel path segment `"source_images"`. -/
def sentinel : List Char := "source_images".toList

/-- models `_build_default_output_path` from `process_source.py`; the
composition with `os.path.abspath` is made explicit through the `abspath`
parameter. -/
def build_default_output_path (abspath : List Char → List Char)
    (source_path : List Char) : List Char :=
  let abs_path := abspath source_path
  let parts := splitSep abs_path
  if sentinel ∈ parts then
    let idx := listIndex sentinel parts
    let project_root := joinSep (parts.take idx)
    let remainder := joinSep (parts.drop (idx + 1))
    pyJoin2 (pyJoin2 project_root "processed_source_images".toList)
      (remainder ++ "_processed".toList)
  else
    let parent := dirname abs_path
    let base_name := basename abs_path
    pyJoin2 parent (base_name ++ "_processed".toList)

/-- helper for `rfindIdx`: scans left to right remembering the last hit. -/
def rfindIdxAux (c : Char) : List Char → Int → Int → Int
  | [], best, _ => best
  | x :: xs, best, i => rfindIdxAux c xs (if x = c then i else best) (i + 1)

/-- models Python `str.rfind(c)`: index of the last occurrence, `-1` if absent. -/
def rfindIdx (c : Char) (p : List Char) : Int := rfindIdxAux c p (-1) 0

/-- models `os.path.splitext(p)[0]` (`genericpath._splitext` with `sep = '/'`
and `extsep = '.'`): the extension starts at the last dot, unless every
character between the last separator and that dot is itself a dot, in which
case nothing is split off. -/
def splitext_root (p : List Char) : List Char :=
  let sepIndex := rfindIdx '/' p
  let dotIndex := rfindIdx '.' p
  if sepIndex < dotIndex then
    let filename := p.drop (sepIndex + 1).toNat
    let dotPos := (dotIndex - sepIndex - 1).toNat
    if (filename.take dotPos).any (fun c => c != '.') then p.take dotIndex.toNat
    else p
  else p

/-- a decoded PIL image: its pixel dimensions plus an abstract tag standing
for its pixel content (the content of every image produced downstream is a
deterministic function of the source content, which the tag tracks). -/
structure PILImage where
  width : Nat
  height : Nat
  data : Nat
deriving DecidableEq

/-- the crop box `(left, top, right, bottom)` computed by `PIL.ImageOps.fit`
at its defaults `bleed = 0.0` and `centering = (0.5, 0.5)` (the call site in
`process_source.py` passes only image and size, so the defaults apply);
rational arithmetic stands for Python floats. -/
def fit_crop_box (img : PILImage) (size : Nat × Nat) : ℚ × ℚ × ℚ × ℚ :=
  let live_w : ℚ := img.width
  let live_h : ℚ := img.height
  let live_aspect : ℚ := live_w / live_h
  let output_aspect : ℚ := (size.1 : ℚ) / (size.2 : ℚ)
  let crop_w : ℚ := if output_aspect ≤ live_aspect then live_h * output_aspect else live_w
  let crop_h : ℚ := if output_aspect ≤ live_aspect then live_h else live_w / output_aspect
  let crop_left : ℚ := (live_w - crop_w) * (1 / 2)
  let crop_top : ℚ := (live_h - crop_h) * (1 / 2)
  (crop_left, crop_top, crop_left + crop_w, crop_top + crop_h)

/-- models `ImageOps.fit(img, size)`: `img.resize(size, box = fit_crop_box …)`
returns an image of exactly the requested dimensions whose content is drawn
from the crop-box region of the source image. -/
def ImageOps_fit (img : PILImage) (size : Nat × Nat) : PILImage :=
  ⟨size.1, size.2, img.data⟩

/-- one entry of the source directory as the loop observes it: its name,
whether `os.path.isfile(os.path.join(source, name))` holds, and its bytes. -/
structure DirEntry where
  name : List Char
  isFile : Bool
  content : List Nat
deriving DecidableEq

/-- the record written by
`processed_img.save(out_path, format="WEBP", quality=75)`: the bytes on disk
are a deterministic function of this record. -/
structure SavedFile where
  format : List Char
  quality : Nat
  image : PILImage
deriving DecidableEq

/-- output files: association of full output path to saved record. -/
abbrev OutMap := List (List Char × SavedFile)

/-- console output lines printed by `process_source_images`. -/
inductive LogLine where
  | processed (filename out_path : List Char)
  | skipping (filename : List Char)
  | done (output_folder_path : List Char)
deriving DecidableEq

/-- whether a log line is a per-file progress (`Processed:`) line. -/
def LogLine.isProcessedLine : LogLine → Bool
  | .processed _ _ => true
  | _ => false

/-- write (create or overwrite) a file in the output map. -/
def writeFile (m : OutMap) (k : List Char) (v : SavedFile) : OutMap :=
  match m with
  | [] => [(k, v)]
  | (k', v') :: rest => if k' = k then (k, v) :: rest else (k', v') :: writeFile rest k v

/-- look a file up by path. -/
def lookupFile (k : List Char) : OutMap → Option SavedFile
  | [] => none
  | (k', v) :: rest => if k' = k then some v else lookupFile k rest

/-- the body of the `for filename in os.listdir(...)` loop for one entry:
non-files are skipped silently; a decode failure is caught, logged and
skipped; a success fits the image to a square and writes it as WebP at
quality 75 under the name `<stem>.webp`. -/
def processEntry (decode : List Nat → Option PILImage) (square_size : Nat)
    (output_folder_path : List Char) (st : OutMap × List LogLine) (e : DirEntry) :
    OutMap × List LogLine :=
  if e.isFile then
    match decode e.content with
    | some img =>
      let processed_img := ImageOps_fit img (square_size, square_size)
      let base_name := splitext_root e.name
      let out_path := pyJoin2 output_folder_path (base_name ++ ".webp".toList)
      (writeFile st.1 out_path ⟨"WEBP".toList, 75, processed_img⟩,
       st.2 ++ [.processed e.name out_path])
    | none => (st.1, st.2 ++ [.skipping e.name])
  else st

/-- the Python exceptions the embedded code can raise. -/
inductive PyError where
  | valueError (msg : List Char)
deriving DecidableEq

/-- everything `process_source_images` did when it returned normally:
`os.makedirs` on the output folder, the final output files, the console log. -/
structure RunResult where
  madeOutputDir : Bool
  outFiles : OutMap
  log : List LogLine
deriving DecidableEq

/-- models `process_source_images(source_folder_path, square_size,
output_folder_path)`: `srcDir = none` models `os.path.isdir` being false,
`some entries` models the listing `os.listdir` returns; `out0` is the prior
content of the output directory.  An `Except.error` result models an
uncaught exception: none of the effects in `RunResult` happened. -/
def process_source_images (decode : List Nat → Option PILImage)
    (source_folder_path : List Char) (srcDir : Option (List DirEntry))
    (square_size : Nat) (output_folder_path : List Char) (out0 : OutMap) :
    Except PyError RunResult :=
  match srcDir with
  | none => .error (.valueError ("Source folder not found: ".toList ++ source_folder_path))
  | some entries =>
    let res := entries.foldl (processEntry decode square_size output_folder_path) (out0, [])
    .ok ⟨true, res.1, res.2 ++ [.done output_folder_path]⟩

/-- the write `processEntry` performs for an entry, if any. -/
def entryWrite (decode : List Nat → Option PILImage) (square_size : Nat)
    (output_folder_path : List Char) (e : DirEntry) : Option (List Char × SavedFile) :=
  if e.isFile then
    (decode e.content).map fun img =>
      (pyJoin2 output_folder_path (splitext_root e.name ++ ".webp".toList),
       ⟨"WEBP".toList, 75, ImageOps_fit img (square_size, square_size)⟩)
  else none

/-- apply a sequence of writes to an output map in order. -/
def applyWrites (ws : List (List Char × SavedFile)) (m : OutMap) : OutMap :=
  ws.foldl (fun acc kv => writeFile acc kv.1 kv.2) m

/-- value of the last write to a given path in a write sequence, if any. -/
def lastWriteVal (k : List Char) : List (List Char × SavedFile) → Option SavedFile
  | [] => none
  | (k', v) :: ws =>
    match lastWriteVal k ws with
    | some v' => some v'
    | none => if k' = k then some v else none

/-- models `args.output_folder or _build_default_output_path(args.input_folder)`
from the `__main__` block: Python `or` yields the right operand when the left
operand is `None` or the empty string (both falsy). -/
def resolve_output_folder (abspath : List Char → List Char)
    (output_folder_arg : Option (List Char)) (input_folder : List Char) : List Char :=
  match output_folder_arg with
  | some s => if s = [] then build_default_output_path abspath input_folder else s
  | none => build_default_output_path abspath input_folder

/-! ### Helper lemmas about the path-string primitives -/

theorem joinSep_nil : joinSep [] = [] := rfl

theorem joinSep_single (x : List Char) : joinSep [x] = x := rfl

theorem joinSep_cons_cons (x y : List Char) (xs : List (List Char)) :
    joinSep (x :: y :: xs) = x ++ '/' :: joinSep (y :: xs) := rfl

theorem joinSep_append_single (l : List (List Char)) (hl : l ≠ []) (x : List Char) :
    joinSep (l ++ [x]) = joinSep l ++ '/' :: x := by
  induction l with
  | nil => exact absurd rfl hl
  | cons a as ih =>
    cases as with
    | nil => simp [joinSep_cons_cons, joinSep_single]
    | cons b bs =>
      have h := ih (by simp)
      simp only [List.cons_append, joinSep_cons_cons] at h ⊢
      rw [h, List.append_assoc]
      rfl

theorem joinSep_cons_form (q : List Char) (qs : List (List Char)) :
    ∃ w, joinSep (q :: qs) = q ++ w := by
  cases qs with
  | nil => exact ⟨[], by simp [joinSep_single]⟩
  | cons y ys => exact ⟨'/' :: joinSep (y :: ys), rfl⟩

theorem joinSep_block (l : List (List Char)) (hl : l ≠ [])
    (h : ∀ s ∈ l, s ≠ [] ∧ '/' ∉ s) :
    ∃ z x, joinSep l = z ++ x ∧ x ≠ [] ∧ '/' ∉ x := by
  rcases List.eq_nil_or_concat l with rfl | ⟨L, b, rfl⟩
  · exact absurd rfl hl
  · rw [List.concat_eq_append]
    have hb := h b (by simp)
    cases L with
    | nil => exact ⟨[], b, by simp [joinSep_single], hb.1, hb.2⟩
    | cons a as =>
      refine ⟨joinSep (a :: as) ++ ['/'], b, ?_, hb.1, hb.2⟩
      rw [joinSep_append_single _ (by simp), List.append_assoc, List.singleton_append]

theorem splitSep_no_sep (a : List Char) (h : '/' ∉ a) : splitSep a = [a] := by
  induction a with
  | nil => rfl
  | cons c cs ih =>
    have hc : c ≠ '/' := by rintro rfl; exact h (List.mem_cons_self _ _)
    have hcs : '/' ∉ cs := fun hm => h (List.mem_cons_of_mem _ hm)
    simp [splitSep, hc, ih hcs]

theorem splitSep_sep_append (a : List Char) (h : '/' ∉ a) (r : List Char) :
    splitSep (a ++ '/' :: r) = a :: splitSep r := by
  induction a with
  | nil => simp [splitSep]
  | cons c cs ih =>
    have hc : c ≠ '/' := by rintro rfl; exact h (List.mem_cons_self _ _)
    have hcs : '/' ∉ cs := fun hm => h (List.mem_cons_of_mem _ hm)
    simp [splitSep, hc, ih hcs]

theorem splitSep_joinSep (l : List (List Char)) (hl : l ≠ [])
    (h : ∀ s ∈ l, '/' ∉ s) : splitSep (joinSep l) = l := by
  induction l with
  | nil => exact absurd rfl hl
  | cons x xs ih =>
    cases xs with
    | nil => exact splitSep_no_sep x (h x (by simp))
    | cons y ys =>
      rw [joinSep_cons_cons, splitSep_sep_append x (h x (by simp)),
        ih (by simp) (fun s hs => h s (List.mem_cons_of_mem _ hs))]

theorem listIndex_append (a : List Char) (l1 l2 : List (List Char)) (h : a ∉ l1) :
    listIndex a (l1 ++ a :: l2) = l1.length := by
  induction l1 with
  | nil => simp [listIndex]
  | cons x xs ih =>
    have hx : x ≠ a := by rintro rfl; exact h (List.mem_cons_self _ _)
    simp [listIndex, hx, ih (fun hm => h (List.mem_cons_of_mem _ hm))]

theorem takeWhile_append_all (p : Char → Bool) (u v : List Char)
    (h : ∀ c ∈ u, p c = true) : (u ++ v).takeWhile p = u ++ v.takeWhile p := by
  induction u with
  | nil => simp
  | cons c cs ih =>
    simp [List.takeWhile_cons, h c (by simp),
      ih (fun d hd => h d (List.mem_cons_of_mem _ hd))]

theorem dropWhile_append_all (p : Char → Bool) (u v : List Char)
    (h : ∀ c ∈ u, p c = true) : (u ++ v).dropWhile p = v.dropWhile p := by
  induction u with
  | nil => simp
  | cons c cs ih =>
    simp [List.dropWhile_cons, h c (by simp),
      ih (fun d hd => h d (List.mem_cons_of_mem _ hd))]

theorem takeWhile_cons_neg (p : Char → Bool) (c : Char) (v : List Char)
    (h : p c = false) : (c :: v).takeWhile p = [] := by
  simp [List.takeWhile_cons, h]

theorem dropWhile_cons_neg (p : Char → Bool) (c : Char) (v : List Char)
    (h : p c = false) : (c :: v).dropWhile p = c :: v := by
  simp [List.dropWhile_cons, h]

theorem dropWhile_cons_pos (p : Char → Bool) (c : Char) (v : List Char)
    (h : p c = true) : (c :: v).dropWhile p = v.dropWhile p := by
  simp [List.dropWhile_cons, h]

theorem bne_sep_all_of_not_mem {x : List Char} (hs : '/' ∉ x) :
    ∀ c ∈ x.reverse, (c != '/') = true := by
  intro c hc
  have hcx : c ∈ x := List.mem_reverse.mp hc
  have hne : c ≠ '/' := fun h => hs (h ▸ hcx)
  simpa [bne_iff_ne] using hne

theorem pyStartsWithSep_block (x z : List Char) (hx : x ≠ []) (hs : '/' ∉ x) :
    pyStartsWithSep (x ++ z) = false := by
  cases x with
  | nil => exact absurd rfl hx
  | cons c cs =>
    have hne : c ≠ '/' := by rintro rfl; exact hs (List.mem_cons_self _ _)
    simpa [pyStartsWithSep] using hne

theorem pyEndsWithSep_block (z x : List Char) (hx : x ≠ []) (hs : '/' ∉ x) :
    pyEndsWithSep (z ++ x) = false := by
  unfold pyEndsWithSep
  rw [List.reverse_append]
  exact pyStartsWithSep_block x.reverse z.reverse
    (by simpa [List.reverse_eq_nil_iff] using hx) (by simpa using hs)

theorem pyJoin2_sep (a b : List Char) (hb : pyStartsWithSep b = false)
    (ha : a ≠ []) (ha2 : pyEndsWithSep a = false) : pyJoin2 a b = a ++ '/' :: b := by
  have hemp : a.isEmpty = false := by
    cases a with
    | nil => exact absurd rfl ha
    | cons _ _ => rfl
  simp [pyJoin2, hb, hemp, ha2]

theorem basename_block (q x : List Char) (hs : '/' ∉ x) :
    basename (q ++ '/' :: x) = x := by
  unfold basename
  have hrev : (q ++ '/' :: x).reverse = x.reverse ++ '/' :: q.reverse := by
    rw [List.reverse_append, List.reverse_cons, List.append_assoc, List.singleton_append]
  rw [hrev, takeWhile_append_all _ _ _ (bne_sep_all_of_not_mem hs),
    takeWhile_cons_neg _ _ _ (by decide)]
  simp

theorem dirname_block (q x : List Char) (hs : '/' ∉ x) :
    dirname (q ++ '/' :: x) = dirnameStrip (q ++ ['/']) := by
  unfold dirname
  have hrev : (q ++ '/' :: x).reverse = x.reverse ++ '/' :: q.reverse := by
    rw [List.reverse_append, List.reverse_cons, List.append_assoc, List.singleton_append]
  rw [hrev, dropWhile_append_all _ _ _ (bne_sep_all_of_not_mem hs),
    dropWhile_cons_neg _ _ _ (by decide), List.reverse_cons, List.reverse_reverse]

theorem dirnameStrip_sep_only : dirnameStrip ['/'] = ['/'] := by decide

theorem dirnameStrip_eval (z xb : List Char) (hxb : xb ≠ []) (hsb : '/' ∉ xb) :
    dirnameStrip ((('/' :: z) ++ xb) ++ ['/']) = ('/' :: z) ++ xb := by
  unfold dirnameStrip
  rw [if_pos]
  · have h1 : ((('/' :: z) ++ xb) ++ ['/']).reverse = '/' :: (('/' :: z) ++ xb).reverse := by
      rw [List.reverse_append]
      rfl
    rw [h1, dropWhile_cons_pos _ _ _ (by decide), List.reverse_append]
    obtain ⟨c, cs, hc⟩ : ∃ c cs, xb.reverse = c :: cs := by
      cases hx : xb.reverse with
      | nil => exact absurd (List.reverse_eq_nil_iff.mp hx) hxb
      | cons c cs => exact ⟨c, cs, rfl⟩
    have hcm : c ∈ xb := List.mem_reverse.mp (hc ▸ List.mem_cons_self _ _)
    have hcne : (c == '/') = false := by
      have : c ≠ '/' := fun h => hsb (h ▸ List.mem_reverse.mp (hc ▸ List.mem_cons_self _ _))
      simpa using this
    rw [hc, List.cons_append,
      dropWhile_cons_neg (fun d => d == '/') c (cs ++ ('/' :: z).reverse) hcne,
      ← List.cons_append, ← hc, ← List.reverse_append, List.reverse_reverse]
  · constructor
    · simp
    · rw [List.any_eq_true]
      obtain ⟨c, hcm⟩ := List.exists_mem_of_ne_nil xb hxb
      have hcne : c ≠ '/' := fun h => hsb (h ▸ hcm)
      exact ⟨c, by simp [hcm], by simpa [bne_iff_ne] using hcne⟩

/-! ### Helper lemmas about the batch-processing model -/

theorem processEntry_not_file (decode : List Nat → Option PILImage) (sq : Nat)
    (outp : List Char) (st : OutMap × List LogLine) (e : DirEntry)
    (he : e.isFile = false) : processEntry decode sq outp st e = st := by
  simp [processEntry, he]

theorem processEntry_decode_none (decode : List Nat → Option PILImage) (sq : Nat)
    (outp : List Char) (st : OutMap × List LogLine) (e : DirEntry)
    (he : e.isFile = true) (hd : decode e.content = none) :
    processEntry decode sq outp st e = (st.1, st.2 ++ [.skipping e.name]) := by
  simp [processEntry, he, hd]

theorem processEntry_decode_some (decode : List Nat → Option PILImage) (sq : Nat)
    (outp : List Char) (st : OutMap × List LogLine) (e : DirEntry) (img : PILImage)
    (he : e.isFile = true) (hd : decode e.content = some img) :
    processEntry decode sq outp st e =
      (writeFile st.1 (pyJoin2 outp (splitext_root e.name ++ ".webp".toList))
        ⟨"WEBP".toList, 75, ImageOps_fit img (sq, sq)⟩,
       st.2 ++ [.processed e.name (pyJoin2 outp (splitext_root e.name ++ ".webp".toList))]) := by
  simp [processEntry, he, hd]

theorem applyWrites_nil (m : OutMap) : applyWrites [] m = m := rfl

theorem applyWrites_cons (k : List Char) (v : SavedFile)
    (ws : List (List Char × SavedFile)) (m : OutMap) :
    applyWrites ((k, v) :: ws) m = applyWrites ws (writeFile m k v) := rfl

theorem fold_outFiles (decode : List Nat → Option PILImage) (sq : Nat) (outp : List Char) :
    ∀ (entries : List DirEntry) (out : OutMap) (log : List LogLine),
      (entries.foldl (processEntry decode sq outp) (out, log)).1 =
        applyWrites (entries.filterMap (entryWrite decode sq outp)) out := by
  intro entries
  induction entries with
  | nil => intro out log; rfl
  | cons e es ih =>
    intro out log
    rw [List.foldl_cons, List.filterMap_cons]
    cases he : e.isFile with
    | false =>
      rw [processEntry_not_file decode sq outp (out, log) e he]
      have : entryWrite decode sq outp e = none := by simp [entryWrite, he]
      rw [this]
      exact ih out log
    | true =>
      cases hd : decode e.content with
      | none =>
        rw [processEntry_decode_none decode sq outp (out, log) e he hd]
        have : entryWrite decode sq outp e = none := by simp [entryWrite, he, hd]
        rw [this]
        exact ih out _
      | some img =>
        rw [processEntry_decode_some decode sq outp (out, log) e img he hd]
        have : entryWrite decode sq outp e =
            some (pyJoin2 outp (splitext_root e.name ++ ".webp".toList),
              ⟨"WEBP".toList, 75, ImageOps_fit img (sq, sq)⟩) := by
          simp [entryWrite, he, hd]
        rw [this]
        rw [applyWrites_cons]
        exact ih _ _

theorem lookupFile_writeFile (m : OutMap) (k k' : List Char) (v : SavedFile) :
    lookupFile k (writeFile m k' v) = if k' = k then some v else lookupFile k m := by
  induction m with
  | nil =>
    simp only [writeFile, lookupFile]
  | cons kv rest ih =>
    obtain ⟨k2, v2⟩ := kv
    by_cases h2 : k2 = k'
    · subst h2
      simp only [writeFile, if_pos rfl, lookupFile]
      by_cases h3 : k2 = k
      · simp [h3]
      · simp [h3]
    · simp only [writeFile, if_neg h2, lookupFile]
      by_cases h4 : k2 = k
      · subst h4
        have : k' ≠ k2 := fun h => h2 h.symm
        simp [this]
      · simp [h4, ih]

theorem lookupFile_applyWrites_none :
    ∀ (ws : List (List Char × SavedFile)) (m : OutMap) (k : List Char),
      lastWriteVal k ws = none →
      lookupFile k (applyWrites ws m) = lookupFile k m := by
  intro ws
  induction ws with
  | nil => intro m k _; rfl
  | cons kv ws ih =>
    intro m k h
    obtain ⟨k1, v1⟩ := kv
    rw [applyWrites_cons]
    cases hlast : lastWriteVal k ws with
    | some v' => simp [lastWriteVal, hlast] at h
    | none =>
      simp only [lastWriteVal, hlast] at h
      have hk1 : k1 ≠ k := by
        intro hk; rw [if_pos hk] at h; exact Option.noConfusion h
      rw [ih _ _ hlast, lookupFile_writeFile, if_neg hk1]

theorem lookupFile_applyWrites_some :
    ∀ (ws : List (List Char × SavedFile)) (m : OutMap) (k : List Char) (v : SavedFile),
      lastWriteVal k ws = some v →
      lookupFile k (applyWrites ws m) = some v := by
  intro ws
  induction ws with
  | nil => intro m k v h; exact absurd h (by simp [lastWriteVal])
  | cons kv ws ih =>
    intro m k v h
    obtain ⟨k1, v1⟩ := kv
    rw [applyWrites_cons]
    cases hlast : lastWriteVal k ws with
    | some v' =>
      simp only [lastWriteVal, hlast] at h
      exact ih _ _ _ (hlast.trans (congrArg some (Option.some.injEq _ _ ▸ h)))
    | none =>
      simp only [lastWriteVal, hlast] at h
      by_cases hk1 : k1 = k
      · rw [if_pos hk1] at h
        obtain rfl : v1 = v := Option.some.injEq _ _ ▸ h
        subst hk1
        rw [lookupFile_applyWrites_none ws _ _ hlast, lookupFile_writeFile, if_pos rfl]
      · rw [if_neg hk1] at h
        exact Option.noConfusion h

theorem lastWriteVal_mem :
    ∀ (ws : List (List Char × SavedFile)) (k : List Char) (v : SavedFile),
      lastWriteVal k ws = some v → (k, v) ∈ ws := by
  intro ws
  induction ws with
  | nil => intro k v h; exact absurd h (by simp [lastWriteVal])
  | cons kv ws ih =>
    intro k v h
    obtain ⟨k1, v1⟩ := kv
    cases hlast : lastWriteVal k ws with
    | some v' =>
      simp only [lastWriteVal, hlast] at h
      obtain rfl : v' = v := Option.some.injEq _ _ ▸ h
      exact List.mem_cons_of_mem _ (ih _ _ hlast)
    | none =>
      simp only [lastWriteVal, hlast] at h
      by_cases hk1 : k1 = k
      · rw [if_pos hk1] at h
        obtain rfl : v1 = v := Option.some.injEq _ _ ▸ h
        subst hk1
        exact List.mem_cons_self _ _
      · rw [if_neg hk1] at h
        exact absurd h (by simp)

theorem entryWrite_shape (decode : List Nat → Option PILImage) (sq : Nat)
    (outp : List Char) (e : DirEntry) (kv : List Char × SavedFile)
    (h : entryWrite decode sq outp e = some kv) :
    kv.2.format = "WEBP".toList ∧ kv.2.quality = 75 := by
  unfold entryWrite at h
  cases he : e.isFile with
  | false => rw [he] at h; exact absurd h (by simp)
  | true =>
    rw [he] at h
    cases hd : decode e.content with
    | none => rw [hd] at h; exact absurd h (by simp)
    | some img =>
      rw [hd] at h
      simp only [if_true, Option.map_some] at h
      obtain rfl : (pyJoin2 outp (splitext_root e.name ++ ".webp".toList),
          (⟨"WEBP".toList, 75, ImageOps_fit img (sq, sq)⟩ : SavedFile)) = kv :=
        Option.some.injEq _ _ ▸ h
      exact ⟨rfl, rfl⟩

/-! ### Claim theorems -/

/-- C1 counterexample: at the absolute source path `/source_images/c` (which
contains the sentinel segment), the code returns the relative path
`processed_source_images/c_processed`, not
`<project_root>/processed_source_images/<remainder>_processed` with the
(empty) project root followed by a separator: `os.path.join` drops the
leading separator when the part before the sentinel is empty. -/
theorem c1_counterexample :
    build_default_output_path (fun s => s) "/source_images/c".toList =
      "processed_source_images/c_processed".toList ∧
    "processed_source_images/c_processed".toList ≠
      "/processed_source_images/c_processed".toList :=
  ⟨by decide, by decide⟩

/-- C1 (amended): for an absolute normalized source path whose segments are
`pre ++ [sentinel] ++ post` with the sentinel not occurring in `pre` (the
split happens at the first occurrence) and with at least one segment before
the sentinel, the default output path is
`<project_root>/processed_source_images/<remainder>_processed`, where the
project root is the path formed by the segments before the sentinel and the
remainder joins the segments after it. -/
theorem c1_sentinel_output_path (abspath : List Char → List Char)
    (source_path : List Char) (pre post : List (List Char))
    (habs : abspath source_path = joinSep ([] :: (pre ++ sentinel :: post)))
    (hpre : pre ≠ [])
    (hsent : sentinel ∉ pre)
    (hpresegs : ∀ s ∈ pre, s ≠ [] ∧ '/' ∉ s)
    (hpostsegs : ∀ s ∈ post, s ≠ [] ∧ '/' ∉ s) :
    build_default_output_path abspath source_path =
      joinSep ([] :: pre) ++ '/' ::
        ("processed_source_images".toList ++ '/' ::
          (joinSep post ++ "_processed".toList)) := by
  simp only [build_default_output_path]
  rw [habs]
  have hsplit : splitSep (joinSep ([] :: (pre ++ sentinel :: post))) =
      [] :: (pre ++ sentinel :: post) := by
    apply splitSep_joinSep _ (by simp)
    intro s hs
    rcases List.mem_cons.mp hs with rfl | hmem
    · simp
    · rcases List.mem_append.mp hmem with h1 | h2
      · exact (hpresegs s h1).2
      · rcases List.mem_cons.mp h2 with rfl | h3
        · decide
        · exact (hpostsegs s h3).2
  rw [hsplit]
  have hmem : sentinel ∈ ([] :: (pre ++ sentinel :: post) : List (List Char)) := by simp
  rw [if_pos hmem]
  have hsplit2 : ([] :: (pre ++ sentinel :: post) : List (List Char)) =
      ([] :: pre) ++ sentinel :: post := by simp
  have hidx : listIndex sentinel ([] :: (pre ++ sentinel :: post)) = pre.length + 1 := by
    rw [hsplit2]
    have hnm : sentinel ∉ ([] :: pre : List (List Char)) := by
      intro hm
      rcases List.mem_cons.mp hm with h0 | h1
      · exact absurd h0 (by decide)
      · exact hsent h1
    rw [listIndex_append sentinel ([] :: pre) post hnm]
    simp
  rw [hidx]
  have htake : ([] :: (pre ++ sentinel :: post) : List (List Char)).take (pre.length + 1) =
      [] :: pre := by
    rw [hsplit2]
    have hlen : pre.length + 1 = ([] :: pre : List (List Char)).length := by simp
    rw [hlen, List.take_left]
  have hdrop : ([] :: (pre ++ sentinel :: post) : List (List Char)).drop (pre.length + 1 + 1) =
      post := by
    have h3 : ([] :: (pre ++ sentinel :: post) : List (List Char)) =
        (([] :: pre) ++ [sentinel]) ++ post := by simp
    have h4 : pre.length + 1 + 1 = ((([] :: pre) ++ [sentinel]) : List (List Char)).length := by
      simp
    rw [h3, h4, List.drop_left]
  rw [htake, hdrop]
  obtain ⟨i, is, rfl⟩ : ∃ i is, pre = i :: is := by
    cases pre with
    | nil => exact absurd rfl hpre
    | cons i is => exact ⟨i, is, rfl⟩
  obtain ⟨z, xb, hzx, hxb1, hxb2⟩ := joinSep_block (i :: is) (by simp) hpresegs
  have hPR : joinSep ([] :: i :: is) = ('/' :: z) ++ xb := by
    rw [joinSep_cons_cons, hzx]
    simp
  have hb1 : pyStartsWithSep "processed_source_images".toList = false := by decide
  have ha1 : joinSep ([] :: i :: is) ≠ [] := by
    rw [hPR]; simp
  have ha2 : pyEndsWithSep (joinSep ([] :: i :: is)) = false := by
    rw [hPR]; exact pyEndsWithSep_block _ _ hxb1 hxb2
  rw [pyJoin2_sep _ _ hb1 ha1 ha2]
  have hb2 : pyStartsWithSep (joinSep post ++ "_processed".toList) = false := by
    cases post with
    | nil => decide
    | cons q qs =>
      obtain ⟨wq, hwq⟩ := joinSep_cons_form q qs
      rw [hwq, List.append_assoc]
      exact pyStartsWithSep_block q _ (hpostsegs q (by simp)).1 (hpostsegs q (by simp)).2
  have ha1' : joinSep ([] :: i :: is) ++ '/' :: "processed_source_images".toList ≠ [] := by
    simp
  have ha2' : pyEndsWithSep (joinSep ([] :: i :: is) ++
      '/' :: "processed_source_images".toList) = false := by
    have hassoc : joinSep ([] :: i :: is) ++ '/' :: "processed_source_images".toList =
        (joinSep ([] :: i :: is) ++ ['/']) ++ "processed_source_images".toList := by
      rw [List.append_assoc, List.singleton_append]
    rw [hassoc]
    exact pyEndsWithSep_block _ _ (by decide) (by decide)
  rw [pyJoin2_sep _ _ hb2 ha1' ha2']
  simp [List.append_assoc]

/-- witness for C1 at the concrete input `/a/b/source_images/c/d`. -/
theorem c1_sentinel_output_path_witness :
    ((fun s : List Char => s) "/a/b/source_images/c/d".toList =
      joinSep ([] :: (["a".toList, "b".toList] ++ sentinel :: ["c".toList, "d".toList]))) ∧
    (["a".toList, "b".toList] : List (List Char)) ≠ [] ∧
    sentinel ∉ (["a".toList, "b".toList] : List (List Char)) ∧
    build_default_output_path (fun s => s) "/a/b/source_images/c/d".toList =
      joinSep ([] :: (["a".toList, "b".toList] : List (List Char))) ++ '/' ::
        ("processed_source_images".toList ++ '/' ::
          (joinSep ["c".toList, "d".toList] ++ "_processed".toList)) :=
  ⟨by decide, by decide, by decide,
    c1_sentinel_output_path (fun s => s) "/a/b/source_images/c/d".toList
      ["a".toList, "b".toList] ["c".toList, "d".toList]
      (by decide) (by decide) (by decide) (by decide) (by decide)⟩

/-- C2: for a source path whose absolute, normalized form contains no
`source_images` segment, the default output path is the sibling directory
named `<source_dir_basename>_processed`: the absolute input path itself with
`_processed` appended. -/
theorem c2_sibling_output_path (abspath : List Char → List Char)
    (source_path : List Char) (segs : List (List Char))
    (habs : abspath source_path = joinSep ([] :: segs))
    (hne : segs ≠ [])
    (hsegs : ∀ s ∈ segs, s ≠ [] ∧ '/' ∉ s)
    (hsent : sentinel ∉ segs) :
    build_default_output_path abspath source_path =
      joinSep ([] :: segs) ++ "_processed".toList := by
  simp only [build_default_output_path]
  rw [habs]
  have hsplit : splitSep (joinSep ([] :: segs)) = [] :: segs := by
    apply splitSep_joinSep _ (by simp)
    intro s hs
    rcases List.mem_cons.mp hs with rfl | hmem
    · simp
    · exact (hsegs s hmem).2
  rw [hsplit]
  have hnotmem : sentinel ∉ ([] :: segs : List (List Char)) := by
    intro hm
    rcases List.mem_cons.mp hm with h0 | h1
    · exact absurd h0 (by decide)
    · exact hsent h1
  rw [if_neg hnotmem]
  rcases List.eq_nil_or_concat segs with rfl | ⟨init, x, rfl⟩
  · exact absurd rfl hne
  · simp only [List.concat_eq_append] at hsegs ⊢
    have hx := hsegs x (by simp)
    have hp : joinSep ([] :: (init ++ [x])) = joinSep ([] :: init) ++ '/' :: x := by
      have h0 : ([] :: (init ++ [x]) : List (List Char)) = ([] :: init) ++ [x] := by simp
      rw [h0, joinSep_append_single _ (by simp)]
    rw [hp, basename_block _ _ hx.2, dirname_block _ _ hx.2]
    cases init with
    | nil =>
      have hq0 : joinSep ([] :: ([] : List (List Char))) = [] := rfl
      rw [hq0]
      simp only [List.nil_append]
      rw [dirnameStrip_sep_only]
      have hb : pyStartsWithSep (x ++ "_processed".toList) = false :=
        pyStartsWithSep_block x _ hx.1 hx.2
      have hbne : ¬ (pyStartsWithSep (x ++ "_processed".toList) = true) := by
        rw [hb]; exact Bool.false_ne_true
      have hcond : ((['/'] : List Char).isEmpty || pyEndsWithSep ['/']) = true := by decide
      simp only [pyJoin2]
      rw [if_neg hbne, if_pos hcond]
      simp
    | cons i is =>
      obtain ⟨z, xb, hzx, hxb1, hxb2⟩ := joinSep_block (i :: is) (by simp)
        (fun s hs => hsegs s (List.mem_append_left _ hs))
      have hQ2 : joinSep ([] :: i :: is) = ('/' :: z) ++ xb := by
        rw [joinSep_cons_cons, hzx]
        simp
      rw [hQ2, dirnameStrip_eval z xb hxb1 hxb2]
      have hb : pyStartsWithSep (x ++ "_processed".toList) = false :=
        pyStartsWithSep_block x _ hx.1 hx.2
      have ha : (('/' :: z) ++ xb) ≠ [] := by simp
      have ha2 : pyEndsWithSep (('/' :: z) ++ xb) = false :=
        pyEndsWithSep_block _ _ hxb1 hxb2
      rw [pyJoin2_sep _ _ hb ha ha2]
      simp [List.append_assoc]

/-- witness for C2 at the concrete input `/x/y/myfolder`. -/
theorem c2_sibling_output_path_witness :
    ((fun s : List Char => s) "/x/y/myfolder".toList =
      joinSep ([] :: ["x".toList, "y".toList, "myfolder".toList])) ∧
    (["x".toList, "y".toList, "myfolder".toList] : List (List Char)) ≠ [] ∧
    sentinel ∉ (["x".toList, "y".toList, "myfolder".toList] : List (List Char)) ∧
    build_default_output_path (fun s => s) "/x/y/myfolder".toList =
      joinSep ([] :: ["x".toList, "y".toList, "myfolder".toList]) ++ "_processed".toList :=
  ⟨by decide, by decide, by decide,
    c2_sibling_output_path (fun s => s) "/x/y/myfolder".toList
      ["x".toList, "y".toList, "myfolder".toList]
      (by decide) (by decide) (by decide) (by decide)⟩

/-- C3: invoking `process_source_images` on a source path that is not an
existing directory raises `ValueError` immediately; the `Except.error` result
carries no `RunResult`, so no output directory is created and no file is read
or written. -/
theorem c3_missing_source_raises (decode : List Nat → Option PILImage)
    (source_folder_path : List Char) (square_size : Nat)
    (output_folder_path : List Char) (out0 : OutMap) :
    process_source_images decode source_folder_path none square_size
        output_folder_path out0 =
      .error (.valueError ("Source folder not found: ".toList ++ source_folder_path)) := rfl

/-- C4: a per-file failure (decode returning `none`, standing for any
exception raised inside the per-file `try` block) is caught and logged as a
skip, produces no output file, and the batch continues: the final output map
is the one obtained with the failing entry absent. -/
theorem c4_per_file_failure_skipped (decode : List Nat → Option PILImage)
    (square_size : Nat) (outp : List Char) (e : DirEntry)
    (he : e.isFile = true) (hd : decode e.content = none)
    (st : OutMap × List LogLine) (pre post : List DirEntry) (out0 : OutMap) :
    processEntry decode square_size outp st e = (st.1, st.2 ++ [.skipping e.name]) ∧
    ((pre ++ e :: post).foldl (processEntry decode square_size outp) (out0, [])).1 =
      ((pre ++ post).foldl (processEntry decode square_size outp) (out0, [])).1 := by
  refine ⟨processEntry_decode_none _ _ _ _ _ he hd, ?_⟩
  rw [fold_outFiles decode square_size outp (pre ++ e :: post) out0 [],
    fold_outFiles decode square_size outp (pre ++ post) out0 [],
    List.filterMap_append, List.filterMap_append, List.filterMap_cons]
  have hwE : entryWrite decode square_size outp e = none := by simp [entryWrite, he, hd]
  rw [hwE]

/-- witness for C4 at a concrete failing entry. -/
theorem c4_per_file_failure_skipped_witness :
    (DirEntry.mk "bad.txt".toList true []).isFile = true ∧
    (fun _ : List Nat => (none : Option PILImage)) (DirEntry.mk "bad.txt".toList true []).content = none ∧
    (processEntry (fun _ => none) 35 [] (([] : OutMap), ([] : List LogLine))
        ⟨"bad.txt".toList, true, []⟩ =
      (([] : OutMap), ([] : List LogLine) ++ [.skipping "bad.txt".toList]) ∧
    ((([] : List DirEntry) ++ ⟨"bad.txt".toList, true, []⟩ :: ([] : List DirEntry)).foldl
        (processEntry (fun _ => none) 35 []) (([] : OutMap), [])).1 =
      ((([] : List DirEntry) ++ ([] : List DirEntry)).foldl
        (processEntry (fun _ => none) 35 []) (([] : OutMap), [])).1) :=
  ⟨rfl, rfl,
    c4_per_file_failure_skipped (fun _ => none) 35 [] ⟨"bad.txt".toList, true, []⟩
      rfl rfl ([], []) [] [] []⟩

/-- C7: an entry that is not a regular file is skipped silently: it changes
neither the output map nor the log, and the whole batch behaves as if the
entry were absent (only direct entries of the listing are ever visited). -/
theorem c7_non_regular_entries_skipped (decode : List Nat → Option PILImage)
    (square_size : Nat) (outp : List Char) (e : DirEntry) (he : e.isFile = false)
    (pre post : List DirEntry) (s0 : OutMap × List LogLine) :
    processEntry decode square_size outp s0 e = s0 ∧
    (pre ++ e :: post).foldl (processEntry decode square_size outp) s0 =
      (pre ++ post).foldl (processEntry decode square_size outp) s0 := by
  refine ⟨processEntry_not_file _ _ _ _ _ he, ?_⟩
  rw [List.foldl_append, List.foldl_append, List.foldl_cons,
    processEntry_not_file _ _ _ _ _ he]

/-- witness for C7 at a concrete directory entry. -/
theorem c7_non_regular_entries_skipped_witness :
    (DirEntry.mk "subdir".toList false []).isFile = false ∧
    (processEntry (fun _ => some ⟨1, 1, 0⟩) 35 [] (([] : OutMap), ([] : List LogLine))
        ⟨"subdir".toList, false, []⟩ = (([] : OutMap), ([] : List LogLine)) ∧
    ((([] : List DirEntry) ++ ⟨"subdir".toList, false, []⟩ :: ([] : List DirEntry)).foldl
        (processEntry (fun _ => some ⟨1, 1, 0⟩) 35 []) (([] : OutMap), [])) =
      ((([] : List DirEntry) ++ ([] : List DirEntry)).foldl
        (processEntry (fun _ => some ⟨1, 1, 0⟩) 35 []) (([] : OutMap), []))) :=
  ⟨rfl,
    c7_non_regular_entries_skipped (fun _ => some ⟨1, 1, 0⟩) 35 []
      ⟨"subdir".toList, false, []⟩ rfl [] [] ([], [])⟩

/-- C5: for a decodable image of positive dimensions and a positive square
size, `ImageOps.fit(img, (s, s))` yields an image of exactly `s × s` pixels,
and the crop box it samples is the centered square of side `min w h`: the
full extent of the shorter dimension, center-cropped on the longer one, so
the resize is a uniform scale of that square region — never letterboxed and
never aspect-distorted beyond the crop. -/
theorem c5_fit_square_center_crop (w h s d : Nat)
    (hw : 0 < w) (hh : 0 < h) (hs : 0 < s) :
    (ImageOps_fit ⟨w, h, d⟩ (s, s)).width = s ∧
    (ImageOps_fit ⟨w, h, d⟩ (s, s)).height = s ∧
    fit_crop_box ⟨w, h, d⟩ (s, s) =
      (((w : ℚ) - min (w : ℚ) (h : ℚ)) / 2, ((h : ℚ) - min (w : ℚ) (h : ℚ)) / 2,
       ((w : ℚ) - min (w : ℚ) (h : ℚ)) / 2 + min (w : ℚ) (h : ℚ),
       ((h : ℚ) - min (w : ℚ) (h : ℚ)) / 2 + min (w : ℚ) (h : ℚ)) := by
  refine ⟨rfl, rfl, ?_⟩
  have hhq : (0 : ℚ) < (h : ℚ) := by exact_mod_cast hh
  have hsq : (0 : ℚ) < (s : ℚ) := by exact_mod_cast hs
  have hout : ((s : ℚ)) / ((s : ℚ)) = 1 := div_self (ne_of_gt hsq)
  by_cases hcase : (h : ℚ) ≤ (w : ℚ)
  · have hcond1 : (1 : ℚ) ≤ (w : ℚ) / (h : ℚ) := (one_le_div hhq).mpr hcase
    have hmin : min (w : ℚ) (h : ℚ) = (h : ℚ) := min_eq_right hcase
    simp only [fit_crop_box, hmin, hout, mul_one, div_one, mul_one_div, if_pos hcond1]
  · have hlt : (w : ℚ) / (h : ℚ) < 1 := (div_lt_one hhq).mpr (lt_of_not_le hcase)
    have hcond1 : ¬ (1 : ℚ) ≤ (w : ℚ) / (h : ℚ) := not_le_of_lt hlt
    have hmin : min (w : ℚ) (h : ℚ) = (w : ℚ) := min_eq_left (le_of_lt (lt_of_not_le hcase))
    simp only [fit_crop_box, hmin, hout, mul_one, div_one, mul_one_div, if_neg hcond1]

/-- witness for C5 at a 400 × 100 input and square size 50: the crop box is
the centered 100 × 100 square `(150, 0, 250, 100)` and the output is 50 × 50. -/
theorem c5_fit_square_center_crop_witness :
    0 < 400 ∧ 0 < 100 ∧ 0 < 50 ∧
    ((ImageOps_fit ⟨400, 100, 0⟩ (50, 50)).width = 50 ∧
     (ImageOps_fit ⟨400, 100, 0⟩ (50, 50)).height = 50 ∧
     fit_crop_box ⟨400, 100, 0⟩ (50, 50) =
       (((400 : ℚ) - min (400 : ℚ) (100 : ℚ)) / 2,
        ((100 : ℚ) - min (400 : ℚ) (100 : ℚ)) / 2,
        ((400 : ℚ) - min (400 : ℚ) (100 : ℚ)) / 2 + min (400 : ℚ) (100 : ℚ),
        ((100 : ℚ) - min (400 : ℚ) (100 : ℚ)) / 2 + min (400 : ℚ) (100 : ℚ))) :=
  ⟨by decide, by decide, by decide,
    c5_fit_square_center_crop 400 100 50 0 (by decide) (by decide) (by decide)⟩

/-- C6: a successfully decoded file produces exactly one write, at the path
`<stem>.webp` inside the output folder, in format WEBP at quality 75; every
file present at the end of a run either was already in the output directory
beforehand or is a WEBP at quality 75 (no other format is ever produced);
and a write to an existing path overwrites it without warning. -/
theorem c6_output_naming_format_quality (decode : List Nat → Option PILImage)
    (square_size : Nat) (outp : List Char) (e : DirEntry) (img : PILImage)
    (st : OutMap × List LogLine) (entries : List DirEntry) (out0 : OutMap)
    (he : e.isFile = true) (hd : decode e.content = some img) :
    processEntry decode square_size outp st e =
      (writeFile st.1 (pyJoin2 outp (splitext_root e.name ++ ".webp".toList))
        ⟨"WEBP".toList, 75, ImageOps_fit img (square_size, square_size)⟩,
       st.2 ++ [.processed e.name
         (pyJoin2 outp (splitext_root e.name ++ ".webp".toList))]) ∧
    (∀ k v, lookupFile k
        ((entries.foldl (processEntry decode square_size outp) (out0, [])).1) = some v →
      lookupFile k out0 = some v ∨ (v.format = "WEBP".toList ∧ v.quality = 75)) ∧
    (∀ (m : OutMap) (k : List Char) (v : SavedFile),
      lookupFile k (writeFile m k v) = some v) := by
  refine ⟨processEntry_decode_some _ _ _ _ _ _ he hd, ?_, ?_⟩
  · intro k v hlook
    rw [fold_outFiles decode square_size outp entries out0 []] at hlook
    cases hlast : lastWriteVal k (entries.filterMap (entryWrite decode square_size outp)) with
    | none =>
      left
      rw [lookupFile_applyWrites_none _ _ _ hlast] at hlook
      exact hlook
    | some v' =>
      right
      rw [lookupFile_applyWrites_some _ _ _ _ hlast] at hlook
      obtain rfl : v' = v := by injection hlook
      have hmem := lastWriteVal_mem _ _ _ hlast
      obtain ⟨a, _, hwr⟩ := List.mem_filterMap.mp hmem
      exact entryWrite_shape decode square_size outp a (k, v') hwr
  · intro m k v
    rw [lookupFile_writeFile, if_pos rfl]

/-- witness for C6 at a concrete decodable entry. -/
theorem c6_output_naming_format_quality_witness :
    (DirEntry.mk "cat.png".toList true [1]).isFile = true ∧
    (fun _ : List Nat => some (PILImage.mk 3 2 9)) (DirEntry.mk "cat.png".toList true [1]).content
      = some (PILImage.mk 3 2 9) ∧
    (processEntry (fun _ => some ⟨3, 2, 9⟩) 35 "/o".toList (([] : OutMap), ([] : List LogLine))
        ⟨"cat.png".toList, true, [1]⟩ =
      (writeFile [] (pyJoin2 "/o".toList (splitext_root "cat.png".toList ++ ".webp".toList))
        ⟨"WEBP".toList, 75, ImageOps_fit ⟨3, 2, 9⟩ (35, 35)⟩,
       [] ++ [.processed "cat.png".toList
         (pyJoin2 "/o".toList (splitext_root "cat.png".toList ++ ".webp".toList))]) ∧
    (∀ k v, lookupFile k
        (([⟨"cat.png".toList, true, [1]⟩].foldl
          (processEntry (fun _ => some ⟨3, 2, 9⟩) 35 "/o".toList) (([] : OutMap), [])).1) = some v →
      lookupFile k ([] : OutMap) = some v ∨ (v.format = "WEBP".toList ∧ v.quality = 75)) ∧
    (∀ (m : OutMap) (k : List Char) (v : SavedFile),
      lookupFile k (writeFile m k v) = some v)) :=
  ⟨rfl, rfl,
    c6_output_naming_format_quality (fun _ => some ⟨3, 2, 9⟩) 35 "/o".toList
      ⟨"cat.png".toList, true, [1]⟩ ⟨3, 2, 9⟩ ([], []) [⟨"cat.png".toList, true, [1]⟩] []
      rfl rfl⟩

/-- C8: running the batch twice with the same decode function, the same
(unchanged) source listing, square size and output folder is idempotent on
the output files: the per-file transform is deterministic, each path written
by the second run receives the same value it already had, and untouched
paths keep the value the first run left, so every output file of the second
run is byte-identical to the first run's. -/
theorem c8_idempotent_rerun (decode : List Nat → Option PILImage)
    (src_path : List Char) (entries : List DirEntry) (square_size : Nat)
    (outp : List Char) (out0 : OutMap) (r1 r2 : RunResult)
    (h1 : process_source_images decode src_path (some entries) square_size outp out0 = .ok r1)
    (h2 : process_source_images decode src_path (some entries) square_size outp r1.outFiles = .ok r2) :
    ∀ k, lookupFile k r2.outFiles = lookupFile k r1.outFiles := by
  have e1 : r1.outFiles =
      applyWrites (entries.filterMap (entryWrite decode square_size outp)) out0 := by
    simp only [process_source_images] at h1
    injection h1 with h1'
    rw [← h1']
    exact fold_outFiles decode square_size outp entries out0 []
  have e2 : r2.outFiles =
      applyWrites (entries.filterMap (entryWrite decode square_size outp)) r1.outFiles := by
    simp only [process_source_images] at h2
    injection h2 with h2'
    rw [← h2']
    exact fold_outFiles decode square_size outp entries r1.outFiles []
  intro k
  cases hlast : lastWriteVal k (entries.filterMap (entryWrite decode square_size outp)) with
  | none => rw [e2, lookupFile_applyWrites_none _ _ _ hlast]
  | some v =>
    rw [e2, lookupFile_applyWrites_some _ _ _ _ hlast, e1,
      lookupFile_applyWrites_some _ _ _ _ hlast]

/-- witness for C8 at a concrete one-file run repeated twice. -/
theorem c8_idempotent_rerun_witness :
    process_source_images (fun _ => some ⟨1, 1, 7⟩) "/src".toList
        (some [⟨"a.png".toList, true, []⟩]) 2 [] [] =
      .ok ⟨true, [("a.webp".toList, ⟨"WEBP".toList, 75, ⟨2, 2, 7⟩⟩)],
        [.processed "a.png".toList "a.webp".toList, .done []]⟩ ∧
    process_source_images (fun _ => some ⟨1, 1, 7⟩) "/src".toList
        (some [⟨"a.png".toList, true, []⟩]) 2 []
        (RunResult.mk true [("a.webp".toList, ⟨"WEBP".toList, 75, ⟨2, 2, 7⟩⟩)]
          [.processed "a.png".toList "a.webp".toList, .done []]).outFiles =
      .ok ⟨true, [("a.webp".toList, ⟨"WEBP".toList, 75, ⟨2, 2, 7⟩⟩)],
        [.processed "a.png".toList "a.webp".toList, .done []]⟩ ∧
    lookupFile "a.webp".toList
        (RunResult.mk true [("a.webp".toList, ⟨"WEBP".toList, 75, ⟨2, 2, 7⟩⟩)]
          [.processed "a.png".toList "a.webp".toList, .done []]).outFiles =
      lookupFile "a.webp".toList
        (RunResult.mk true [("a.webp".toList, ⟨"WEBP".toList, 75, ⟨2, 2, 7⟩⟩)]
          [.processed "a.png".toList "a.webp".toList, .done []]).outFiles :=
  ⟨rfl, rfl,
    c8_idempotent_rerun (fun _ => some ⟨1, 1, 7⟩) "/src".toList
      [⟨"a.png".toList, true, []⟩] 2 [] []
      ⟨true, [("a.webp".toList, ⟨"WEBP".toList, 75, ⟨2, 2, 7⟩⟩)],
        [.processed "a.png".toList "a.webp".toList, .done []]⟩
      ⟨true, [("a.webp".toList, ⟨"WEBP".toList, 75, ⟨2, 2, 7⟩⟩)],
        [.processed "a.png".toList "a.webp".toList, .done []]⟩
      rfl rfl "a.webp".toList⟩

/-- C9: input names with equal stems (names differing only in their
extension) map to the same output path `<stem>.webp`; concretely, processing
`a.png` and then `a.jpg` leaves a single output file holding the later
file's image — the later write silently overwrites the earlier one — and the
number of output files is strictly smaller than the number of successfully
processed inputs (1 output, 2 `Processed` log lines). -/
theorem c9_stem_collision_overwrite :
    (∀ (outp n1 n2 : List Char), splitext_root n1 = splitext_root n2 →
      pyJoin2 outp (splitext_root n1 ++ ".webp".toList) =
        pyJoin2 outp (splitext_root n2 ++ ".webp".toList)) ∧
    splitext_root "a.png".toList = splitext_root "a.jpg".toList ∧
    (([⟨"a.png".toList, true, [0]⟩, ⟨"a.jpg".toList, true, [0, 0]⟩] : List DirEntry).foldl
        (processEntry (fun b => some ⟨1, 1, b.length⟩) 5 "/out".toList)
        (([] : OutMap), [])).1 =
      [("/out/a.webp".toList, ⟨"WEBP".toList, 75, ⟨5, 5, 2⟩⟩)] ∧
    ((([⟨"a.png".toList, true, [0]⟩, ⟨"a.jpg".toList, true, [0, 0]⟩] : List DirEntry).foldl
        (processEntry (fun b => some ⟨1, 1, b.length⟩) 5 "/out".toList)
        (([] : OutMap), [])).2.filter LogLine.isProcessedLine).length = 2 ∧
    (([⟨"a.png".toList, true, [0]⟩, ⟨"a.jpg".toList, true, [0, 0]⟩] : List DirEntry).foldl
        (processEntry (fun b => some ⟨1, 1, b.length⟩) 5 "/out".toList)
        (([] : OutMap), [])).1.length <
      ((([⟨"a.png".toList, true, [0]⟩, ⟨"a.jpg".toList, true, [0, 0]⟩] : List DirEntry).foldl
        (processEntry (fun b => some ⟨1, 1, b.length⟩) 5 "/out".toList)
        (([] : OutMap), [])).2.filter LogLine.isProcessedLine).length := by
  refine ⟨?_, by decide, by decide, by decide, by decide⟩
  intro outp n1 n2 h
  rw [h]

/-- witness for C9: the two concrete names `a.png` and `a.jpg` have the same
stem, hence the same output path. -/
theorem c9_stem_collision_overwrite_witness :
    splitext_root "a.png".toList = splitext_root "a.jpg".toList ∧
    pyJoin2 "/out".toList (splitext_root "a.png".toList ++ ".webp".toList) =
      pyJoin2 "/out".toList (splitext_root "a.jpg".toList ++ ".webp".toList) :=
  ⟨by decide,
    c9_stem_collision_overwrite.1 "/out".toList "a.png".toList "a.jpg".toList (by decide)⟩

/-- C10: an empty string passed as the optional `output_folder` argument is
treated exactly like omitting it, because the fallback `args.output_folder or
_build_default_output_path(args.input_folder)` tests Python truthiness: in
both cases the derived default output path is used. -/
theorem c10_empty_output_arg_default (abspath : List Char → List Char)
    (input_folder : List Char) :
    resolve_output_folder abspath (some []) input_folder =
      resolve_output_folder abspath none input_folder ∧
    resolve_output_folder abspath none input_folder =
      build_default_output_path abspath input_folder :=
  ⟨rfl, rfl⟩
